import Mathlib

/-!
Shallow embedding of the AI-summarization subsystem of the notes-app
repository (canonical variant: `note-app-backend/src/services/aiService.js`;
the older `backend/src/services/aiService.js` variant is embedded where a
claim refers to it, under a `B` suffix).

Text is modelled as `List Char` (JavaScript strings over the ASCII range used
by the literals of the code).  JavaScript numeric operations are modelled exactly:
- `Math.ceil(m / 4)`, `Math.ceil(m * 4)`, `Math.ceil(m / 3.5)` on a natural
  `m` are exact ceiling divisions (the float divisors 4 and 3.5 are exactly
  representable, and the exact quotients are never within a float rounding
  error of a different integer for realistic sizes);
- `Math.ceil(S * 0.3)` agrees with `⌈3S/10⌉` for all `S ≤ 20`, and the code
  caps the sentence count at 20 before this expression is evaluated;
- the comparison `lastSpace > targetChars * 0.8` agrees with the exact
  rational comparison `5 * lastSpace > 4 * targetChars` because the rounded
  float product never falls below the exact value `4 * targetChars / 5`;
- sentence score factors (1.8, 1.3, 0.3, 0.7, 1.2, 1.4) are modelled in `ℚ`.
`Array.prototype.sort` (stable, per ES2019) is modelled by a stable insertion
sort parameterized by the strict JS-comparator "comes before" relation.
-/

namespace NotesApp

/-- JavaScript string contents, as a list of characters. -/
abbrev Str := List Char

/-- The apostrophe character (used inside provider failure phrases). -/
def apos : Char := Char.ofNat 39

/-- Sentence-terminal characters: the regex class `[.!?]`. -/
def isSentTerm (c : Char) : Bool := c = '.' || c = '!' || c = '?'

/-- JS `\w` word characters `[A-Za-z0-9_]`; `\W` is the complement. -/
def isWordChar (c : Char) : Bool := c.isAlphanum || c = '_'

/-- JS `\s` whitespace (ASCII fragment used by the inputs of the code). -/
def isWs (c : Char) : Bool := c.isWhitespace

/-- Worker for `jsSplit`: scans the character list; `cur` is the current
token (reversed), `inSep = true` while consuming a separator run. -/
def splitRunsAux (p : Char → Bool) : List Char → List Char → Bool → List Str
  | [], _, true => [[]]
  | [], cur, false => [cur.reverse]
  | c :: cs, cur, inSep =>
    if inSep then
      if p c then splitRunsAux p cs [] true
      else splitRunsAux p cs [c] false
    else
      if p c then cur.reverse :: splitRunsAux p cs [] true
      else splitRunsAux p cs (c :: cur) false

/-- JS `String.prototype.split` with a one-character-class regex under `+`:
splits on maximal runs of characters satisfying `p`, keeping the (possibly
empty) leading and trailing tokens, exactly as the regex split does. -/
def jsSplit (p : Char → Bool) (s : Str) : List Str := splitRunsAux p s [] false

/-- JS `String.prototype.trim` (ASCII whitespace fragment). -/
def jsTrim (s : Str) : Str := ((s.dropWhile isWs).reverse.dropWhile isWs).reverse

/-- JS `String.prototype.toLowerCase` (ASCII fragment). -/
def lower (s : Str) : Str := s.map Char.toLower

/-- Boolean substring test, modelling JS `String.prototype.includes`. -/
def containsSub (needle : Str) : Str → Bool
  | [] => needle.isEmpty
  | c :: cs => needle.isPrefixOf (c :: cs) || containsSub needle cs

/-- `extractSentences(text)`: split on `[.!?]+`, trim, keep fragments longer
than 10 characters, first 20 only. -/
def extractSentences (text : Str) : List Str :=
  (((jsSplit isSentTerm text).map jsTrim).filter (fun s => s.length > 10)).take 20

/-- The stop-word set of `calculateWordFrequencies`. -/
def stopWords : List Str :=
  (["the", "and", "or", "but", "in", "on", "at", "to", "for", "of", "with",
    "by", "is", "are", "was", "were", "be", "been", "have", "has", "had",
    "do", "does", "did", "will", "would", "could", "should", "may", "might",
    "can", "this", "that", "these", "those"] : List String).map String.toList

/-- The lowercased, `\W+`-split, length-filtered word list of a text, as used
both by `calculateWordFrequencies` and by per-sentence scoring. -/
def contentWords (text : Str) : List Str :=
  (jsSplit (fun c => !isWordChar c) (lower text)).filter (fun w => w.length > 2)

/-- `calculateWordFrequencies(text)` as a lookup function: the count of a
non-stop word among the content words (absent and stop words give 0). -/
def wordFreq (text : Str) (w : Str) : ℕ :=
  if stopWords.contains w then 0 else (contentWords text).count w

/-- The keyword list of the sentence scorer (canonical variant). -/
def scoreKeywords : List Str :=
  (["important", "key", "main", "significant", "conclusion", "summary",
    "result", "therefore", "however", "moreover", "furthermore",
    "consequently", "finally", "first", "second", "third", "primary",
    "secondary", "essential", "critical", "shows", "demonstrates",
    "indicates", "reveals", "suggests", "proves"] : List String).map
    String.toList

/-- The compounded ×1.4 keyword factor: one multiplication per keyword whose
text occurs in the lowercased sentence. -/
def keywordFactor (sentence : Str) : ℚ :=
  scoreKeywords.foldl
    (fun acc kw => if containsSub kw (lower sentence) then acc * (14 / 10) else acc) 1

/-- A scored sentence: `{ sentence, score, index }`. -/
structure Scored where
  sentence : Str
  score : ℚ
  index : ℕ
deriving DecidableEq, Repr

/-- The per-sentence score of `fallbackSummarize` (canonical variant):
frequency sum, then position, length, keyword and numeric factors, in the
order of the source. -/
def scoreSentence (text sentence : Str) (index total : ℕ) : ℚ :=
  let words := (jsSplit (fun c => !isWordChar c) (lower sentence)).filter
    (fun w => w.length > 2)
  let s0 : ℚ := (words.map (fun w => (wordFreq text w : ℚ))).sum
  let s1 := if index = 0 then s0 * (18 / 10) else s0
  let s2 := if index = total - 1 then s1 * (13 / 10) else s1
  let wc := words.length
  let s3 := if wc < 5 then s2 * (3 / 10) else s2
  let s4 := if wc > 35 then s3 * (7 / 10) else s3
  let s5 := if 8 ≤ wc ∧ wc ≤ 25 then s4 * (12 / 10) else s4
  let s6 := s5 * keywordFactor sentence
  if sentence.any Char.isDigit then s6 * (12 / 10) else s6

/-- The scored-sentence list built by `fallbackSummarize`. -/
def scoredSentences (text : Str) : List Scored :=
  let sentences := extractSentences text
  sentences.enum.map
    (fun p => ⟨p.2, scoreSentence text p.2 p.1 sentences.length, p.1⟩)

/-- Stable insertion used to model JS `Array.prototype.sort` (stable): `lt x y`
means the comparator puts `x` strictly before `y`; a new element goes after
every existing element it is not strictly before. -/
def stInsert (lt : α → α → Bool) (x : α) : List α → List α
  | [] => [x]
  | y :: ys => if lt x y then x :: y :: ys else y :: stInsert lt x ys

/-- Stable sort: fold the list left-to-right into a sorted accumulator. -/
def stSort (lt : α → α → Bool) (l : List α) : List α :=
  l.foldl (fun acc x => stInsert lt x acc) []

/-- Comparator `(a, b) => b.score - a.score`: descending score. -/
def ltScore (a b : Scored) : Bool := decide (b.score < a.score)

/-- Comparator `(a, b) => a.index - b.index`: ascending original index. -/
def ltIdx (a b : Scored) : Bool := decide (a.index < b.index)

/-- `numSentences`: `Math.min(Math.max(2, Math.ceil(S * 0.3)), 4)`
(exact since the code caps at `S ≤ 20`). -/
def numSentences (S : ℕ) : ℕ := min (max 2 ((3 * S + 9) / 10)) 4

/-- The score-descending sort of the scored sentences. -/
def scoreSorted (text : Str) : List Scored := stSort ltScore (scoredSentences text)

/-- `topSentences`: the first `numSentences` of the score-sorted list. -/
def topSentences (text : Str) : List Scored :=
  (scoreSorted text).take (numSentences (extractSentences text).length)

/-- The selected sentences re-sorted by ascending original index. -/
def orderedScored (text : Str) : List Scored := stSort ltIdx (topSentences text)

/-- `orderedSentences`: selected sentence texts in original order. -/
def orderedSentences (text : Str) : List Str :=
  (orderedScored text).map Scored.sentence

/-- `sentence.split(/\s+/).length`, the word count used by both summary
assembly loops. -/
def sentenceWordCount (s : Str) : ℕ := (jsSplit isWs s).length

/-- Ceiling of `maxLength / 3.5`, the word budget of the fallback engine. -/
def targetWordsFB (maxLength : ℕ) : ℕ := (2 * maxLength + 6) / 7

/-- Ceiling of `maxLength / 4`, the word budget of the truncation path. -/
def targetWordsST (maxLength : ℕ) : ℕ := (maxLength + 3) / 4

/-- The `for (const sentence of orderedSentences)` loop of
`fallbackSummarize`: append fitting sentences (space-separated, adding a
period to unterminated ones and a trailing space); if nothing was appended
yet and the sentence overflows, emit its first `max(10, targetWords)` words
with an ellipsis and stop; otherwise skip and continue. -/
def buildSummaryGo (targetWords : ℕ) : List Str → Str → ℕ → Str
  | [], summary, _ => summary
  | sentence :: rest, summary, wc =>
    let sw := sentenceWordCount sentence
    if wc + sw ≤ targetWords then
      let s1 := summary ++ (if summary.isEmpty then [] else [' ']) ++ jsTrim sentence
      let s2 := if !(['.'].isSuffixOf sentence) && !(['!'].isSuffixOf sentence)
          && !(['?'].isSuffixOf sentence) then s1 ++ ['.'] else s1
      buildSummaryGo targetWords rest (s2 ++ [' ']) (wc + sw)
    else if summary.isEmpty then
      let truncated := List.intercalate [' '] ((jsSplit isWs sentence).take (max 10 targetWords))
      truncated ++ (if ['.'].isSuffixOf truncated then [] else ('.' : Char) :: ['.', '.'])
    else buildSummaryGo targetWords rest summary wc

/-- The assembled (pre-style) summary: run the loop, then `summary.trim()`. -/
def buildSummary (targetWords : ℕ) (ordered : List Str) : Str :=
  jsTrim (buildSummaryGo targetWords ordered [] 0)

/-- The assembled summary of the fallback engine before style formatting. -/
def assembledSummary (content : Str) (maxLength : ℕ) : Str :=
  buildSummary (targetWordsFB maxLength) (orderedSentences content)

/-- The requested summary style (`concise` is the default). -/
inductive Style | concise | bullet | detailed
deriving DecidableEq, Repr

/-- The bullet marker literal of the canonical source file. -/
def bulletMarker : Str := ("â€¢ " : String).toList

/-- The clauses kept by the bullet formatter: split the summary on `[.!?]+`
and keep those whose trimmed length exceeds 15. -/
def bulletPoints (s : Str) : List Str :=
  (jsSplit isSentTerm s).filter (fun p => (jsTrim p).length > 15)

/-- Style-based formatting of a non-empty assembled summary (`concise` is
untouched; the source guards `bullet`/`detailed` with `summary` truthiness). -/
def applyStyle (style : Style) (summary : Str) : Str :=
  match style with
  | .bullet =>
    if summary.isEmpty then summary
    else List.intercalate ['\n'] ((bulletPoints summary).map (fun p => bulletMarker ++ jsTrim p))
  | .detailed =>
    if summary.isEmpty then summary
    else ("Summary: " : String).toList ++ summary
  | .concise => summary

/-- `content.lastIndexOf(' ')` as an optional index (JS returns -1 when
absent; the sole use compares it against a nonnegative bound). -/
def lastSpaceIdx (s : Str) : Option ℕ :=
  s.enum.foldl (fun acc p => if p.2 = ' ' then some p.1 else acc) none

/-- The sentence-accumulation loop of the canonical `simpleTruncate`:
join fitting sentences with `". "`; if the first sentence overflows, emit its
first `targetWords` words plus an ellipsis; otherwise stop. -/
def simpleTruncGo (targetWords : ℕ) : List Str → Str → ℕ → Str
  | [], summary, _ => summary
  | sentence :: rest, summary, wc =>
    let sw := sentenceWordCount sentence
    if wc + sw ≤ targetWords then
      simpleTruncGo targetWords rest
        (summary ++ (if summary.isEmpty then [] else ('.' : Char) :: [' ']) ++ sentence)
        (wc + sw)
    else if summary.isEmpty then
      List.intercalate [' '] ((jsSplit isWs sentence).take targetWords)
        ++ ('.' : Char) :: ['.', '.']
    else summary

/-- Canonical `simpleTruncate(content, maxLength)`: sentence-based word-budget
truncation, character truncation when no sentence fragment exists. -/
def simpleTruncate (content : Str) (maxLength : ℕ) : Str :=
  let targetWords := targetWordsST maxLength
  let sentences := ((jsSplit isSentTerm content).map jsTrim).filter (fun s => s.length > 0)
  if sentences.isEmpty then
    let targetChars := maxLength * 4
    if content.length ≤ targetChars then content
    else
      let truncated := content.take targetChars
      match lastSpaceIdx truncated with
      | some i =>
        if 5 * i > 4 * targetChars then truncated.take i ++ ('.' : Char) :: ['.', '.']
        else truncated ++ ('.' : Char) :: ['.', '.']
      | none => truncated ++ ('.' : Char) :: ['.', '.']
  else
    let s0 := simpleTruncGo targetWords sentences [] 0
    let s1 := if !s0.isEmpty && !(['.'].isSuffixOf s0)
        && !(['.', '.', '.'].isSuffixOf s0) then s0 ++ ['.'] else s0
    if s1.isEmpty then content.take (maxLength * 4) ++ ('.' : Char) :: ['.', '.'] else s1

/-- `simpleTruncate` of the `backend/src` variant: pure character truncation
at `maxLength * 4` with a word-boundary snap. -/
def simpleTruncateB (content : Str) (maxLength : ℕ) : Str :=
  let targetChars := maxLength * 4
  if content.length ≤ targetChars then content
  else
    let truncated := content.take targetChars
    match lastSpaceIdx truncated with
    | some i =>
      if 5 * i > 4 * targetChars then truncated.take i ++ ('.' : Char) :: ['.', '.']
      else truncated ++ ('.' : Char) :: ['.', '.']
    | none => truncated ++ ('.' : Char) :: ['.', '.']

/-- The distinct non-stop content words of a text, in first-occurrence order
(JS `Object.entries` insertion order of the frequency map). -/
def distinctWords (content : Str) : List Str :=
  ((contentWords content).filter (fun w => !stopWords.contains w)).foldl
    (fun acc w => if acc.contains w then acc else acc ++ [w]) []

/-- `generateKeywordSummary(content, maxWords)`: top frequent words as
`"Key topics: …"` followed by a simple truncation. -/
def generateKeywordSummary (content : Str) (maxWords : ℕ) : Str :=
  let entries := (distinctWords content).map (fun w => (w, wordFreq content w))
  let sorted := stSort (fun a b : Str × ℕ => decide (b.2 < a.2)) entries
  let top := (sorted.take (min 10 (maxWords / 2))).map Prod.fst
  if top.isEmpty then simpleTruncate content (maxWords * 5)
  else ("Key topics: " : String).toList ++ List.intercalate (", " : String).toList top
    ++ ('.' : Char) :: [' '] ++ simpleTruncate content (maxWords * 3)

/-- Resolved summarization options (`maxLength` defaulted from configuration,
`style` defaulting to `concise`, both resolved by the destructuring at the
top of `summarizeText`). -/
structure Options where
  maxLength : ℕ
  style : Style
deriving DecidableEq, Repr

/-- The default options (`config.maxTokens || 150`, style `concise`). -/
def defaultOptions : Options := ⟨150, .concise⟩

/-- `fallbackSummarize(content, options)` (canonical variant).  The JS body is
wrapped in a `try`/`catch`, but every operation it performs is total, so the
`catch` branch is unreachable and the function is modelled as a total
function. -/
def fallbackSummarize (content : Str) (opts : Options) : Str :=
  if (extractSentences content).isEmpty then simpleTruncate content opts.maxLength
  else
    let targetWords := targetWordsFB opts.maxLength
    let styled := applyStyle opts.style (assembledSummary content opts.maxLength)
    if styled.isEmpty then generateKeywordSummary content targetWords else styled

/-- A JavaScript value passed where a string is expected: either a string or
some non-string value (the code only distinguishes these two cases). -/
inductive JSVal
  | str (s : Str)
  | nonstr
deriving DecidableEq, Repr

/-- The provider tags appearing in results and statistics. -/
inductive Provider | huggingface | openai | fallback | simple
deriving DecidableEq, Repr

/-- Credential presence, read once at service construction. -/
structure Config where
  huggingFaceApiKey : Bool
  openaiApiKey : Bool
deriving DecidableEq, Repr

/-- `selectPrimaryProvider()`: HuggingFace, else OpenAI, else the local
fallback engine. -/
def selectPrimaryProvider (c : Config) : Provider :=
  if c.huggingFaceApiKey then .huggingface
  else if c.openaiApiKey then .openai
  else .fallback

/-- The mutable service state: the provider chosen at construction and the
process-wide request/error counters. -/
structure AIState where
  currentProvider : Provider
  requestCount : ℕ
  errorCount : ℕ
deriving DecidableEq, Repr

/-- The `AIService` constructor: select the provider, zero the counters. -/
def initState (c : Config) : AIState := ⟨selectPrimaryProvider c, 0, 0⟩

/-- The error escaping `summarizeText` (by construction of the code, only the
input-validation `ValidationError` can escape; provider errors are absorbed
by the fallback chain). -/
inductive ServiceError
  | validation (msg : Str)
deriving DecidableEq, Repr

/-- A `SummarizationResult`: `{ summary, provider, wordCount, originalLength }`. -/
structure SummaryResult where
  summary : Str
  provider : Provider
  wordCount : ℕ
  originalLength : ℕ
deriving DecidableEq, Repr

/-- `summary.split(' ').length`: splitting on the literal one-character
string `' '` yields one part per space plus one. -/
def wordCountJS (s : Str) : ℕ := s.count ' ' + 1

/-- `formatResult(summary, provider, originalContent)`. -/
def formatResult (summary : Str) (provider : Provider) (original : Str) : SummaryResult :=
  ⟨summary, provider, wordCountJS summary, original.length⟩

/-- The input validation at the top of `summarizeText` (canonical bounds:
100 and 50,000 characters on the trimmed text). -/
def validateInput (v : JSVal) : Except Str Str :=
  match v with
  | .nonstr => .error ("Content must be a non-empty string" : String).toList
  | .str s =>
    if s.isEmpty then .error ("Content must be a non-empty string" : String).toList
    else
      let t := jsTrim s
      if t.length < 100 then
        .error ("Content must be at least 100 characters long for meaningful summarization" : String).toList
      else if t.length > 50000 then
        .error ("Content is too long for summarization (max 50,000 characters)" : String).toList
      else .ok t

/-- The failure-phrase patterns of `validateAIResponse`, each matched as a
case-insensitive prefix (regexes `/^(…)/i`). -/
def failurePhrases : List Str :=
  [("I cannot" : String).toList,
   ("I can" : String).toList ++ [apos] ++ [ 't'],
   ("Unable to" : String).toList,
   ("Sorry, I cannot" : String).toList,
   ("As an AI" : String).toList,
   ("I" : String).toList ++ [apos] ++ ("m an AI" : String).toList,
   ("I am an AI" : String).toList,
   ("Error" : String).toList,
   ("Failed" : String).toList,
   ("Exception" : String).toList]

/-- Case-insensitive prefix test against the failure-phrase list. -/
def matchesFailurePhrase (s : Str) : Bool :=
  failurePhrases.any (fun p => (lower p).isPrefixOf (lower s))

/-- `validateAIResponse(summary, originalContent)`: reject non-strings, falsy
values, trimmed length < 10 or > original length, and failure phrases;
otherwise return the trimmed summary. -/
def validateAIResponse (v : JSVal) (original : Str) : Except Str Str :=
  match v with
  | .nonstr => .error ("Invalid AI response format" : String).toList
  | .str s =>
    if s.isEmpty then .error ("Invalid AI response format" : String).toList
    else
      let t := jsTrim s
      if t.length < 10 then .error ("AI response too short" : String).toList
      else if t.length > original.length then
        .error ("AI response longer than original content" : String).toList
      else if matchesFailurePhrase t then
        .error ("AI response indicates failure" : String).toList
      else .ok t

/-- The exponential-backoff delay computed after a failed attempt:
`Math.min(1000 * Math.pow(2, attempt - 1), 10000)`. -/
def backoffDelay (attempt : ℕ) : ℕ := min (1000 * 2 ^ (attempt - 1)) 10000

/-- Worker for `executeWithRetry`: `attempt` is the 1-based attempt counter,
`remaining` the number of further attempts allowed after this one.  Returns
the final outcome and the list of backoff delays slept, in order. -/
def executeWithRetryGo (op : ℕ → Except E α) (attempt : ℕ) :
    (remaining : ℕ) → Except E α × List ℕ
  | 0 =>
    (match op attempt with
     | .ok a => (.ok a, [])
     | .error e => (.error e, []))
  | r + 1 =>
    match op attempt with
    | .ok a => (.ok a, [])
    | .error _ =>
      let res := executeWithRetryGo op (attempt + 1) r
      (res.1, backoffDelay attempt :: res.2)

/-- `executeWithRetry(fn, args, maxRetries)` over an abstract per-attempt
operation: attempts `1 … maxRetries`, with a backoff delay between attempts,
rethrowing the last error after the final failure.  (Meaningful for
`maxRetries ≥ 1`; the code is called with budgets 2 and 3.) -/
def executeWithRetry (op : ℕ → Except E α) (maxRetries : ℕ) : Except E α × List ℕ :=
  executeWithRetryGo op 1 (maxRetries - 1)

/-- `tryFallbackSummarization(content, options)`: a single, unretried call of
the extractive engine.  (The engine is total, so the `catch`/`simple` branch
inside `tryFallbackSummarization` is unreachable.) -/
def tryFallbackSummarization (content : Str) (opts : Options) : SummaryResult :=
  formatResult (fallbackSummarize content opts) .fallback content

/-- The outcome of the `try` block of `summarizeText`: the retry-wrapped
primary provider call followed by `validateAIResponse`.  Network providers
are abstracted by the `oracle` (the eventual outcome of their retried call);
when the current provider is the local engine the primary call is the engine
itself, which is total, so its retry succeeds on the first attempt. -/
def primaryOutcome (p : Provider) (oracle : Except Unit Str) (t : Str)
    (opts : Options) : Except Unit Str :=
  let primary : Except Unit Str :=
    match p with
    | .fallback => .ok (fallbackSummarize t opts)
    | _ => oracle
  match primary with
  | .error _ => .error ()
  | .ok s =>
    match validateAIResponse (.str s) t with
    | .error _ => .error ()
    | .ok v => .ok v

/-- `summarizeText(content, options)` as a state-passing function: validate,
count the request, run the primary provider with retry and response
validation, and on failure count the error and fall back (to the extractive
engine for a network provider, else to simple truncation). -/
def summarizeText (st : AIState) (oracle : Except Unit Str) (input : JSVal)
    (opts : Options) : Except ServiceError SummaryResult × AIState :=
  match validateInput input with
  | .error m => (.error (.validation m), st)
  | .ok t =>
    let st1 : AIState := ⟨st.currentProvider, st.requestCount + 1, st.errorCount⟩
    match primaryOutcome st.currentProvider oracle t opts with
    | .ok v => (.ok (formatResult v st.currentProvider t), st1)
    | .error _ =>
      let st2 : AIState := ⟨st.currentProvider, st1.requestCount, st1.errorCount + 1⟩
      if st.currentProvider ≠ .fallback then
        (.ok (tryFallbackSummarization t opts), st2)
      else
        (.ok (formatResult (simpleTruncate t opts.maxLength) .simple t), st2)

/-- The statistics record returned by `getStats()` (`successRate` as the
exact rational percentage, before the two-decimal formatting). -/
structure Stats where
  requestCount : ℕ
  errorCount : ℕ
  successRate : ℚ
  currentProvider : Provider
deriving DecidableEq, Repr

/-- `getStats()`. -/
def getStats (st : AIState) : Stats :=
  ⟨st.requestCount, st.errorCount,
   if st.requestCount > 0 then
     ((st.requestCount : ℚ) - (st.errorCount : ℚ)) / (st.requestCount : ℚ) * 100
   else 0,
   st.currentProvider⟩

/-- Decidable equality for `Except` (not derived by core). -/
def exceptEqDec [DecidableEq ε] [DecidableEq α] : DecidableEq (Except ε α)
  | .error a, .error b =>
    if h : a = b then isTrue (congrArg Except.error h)
    else isFalse (fun hh => h (Except.error.inj hh))
  | .error _, .ok _ => isFalse (fun hh => Except.noConfusion hh)
  | .ok _, .error _ => isFalse (fun hh => Except.noConfusion hh)
  | .ok a, .ok b =>
    if h : a = b then isTrue (congrArg Except.ok h)
    else isFalse (fun hh => h (Except.ok.inj hh))

instance [DecidableEq ε] [DecidableEq α] : DecidableEq (Except ε α) := exceptEqDec

/-- One recorded `summarizeText` call: its input, options, and the abstract
outcome of the retried network-provider call. -/
structure Call where
  input : JSVal
  opts : Options
  oracle : Except Unit Str
deriving DecidableEq, Repr

/-- The state after one call (the caller may or may not look at the result). -/
def stepCall (st : AIState) (c : Call) : AIState :=
  (summarizeText st c.oracle c.input c.opts).2

/-- The state after a sequence of calls. -/
def runCalls (st : AIState) (cs : List Call) : AIState := cs.foldl stepCall st

/-- Whether a call passes input validation. -/
def passesValidation (c : Call) : Bool :=
  match validateInput c.input with
  | .ok _ => true
  | .error _ => false

/-- Whether the primary provider path of a (validated) call fails, i.e. the `try`
block of `summarizeText` throws and the error counter is incremented. -/
def callPrimaryFails (p : Provider) (c : Call) : Bool :=
  match validateInput c.input with
  | .error _ => false
  | .ok t =>
    match primaryOutcome p c.oracle t c.opts with
    | .error _ => true
    | .ok _ => false

/-! Basic facts about input validation -/

/-- An input that is not a string, is empty, or has an out-of-bounds trimmed
length is rejected by `validateInput`. -/
theorem validateInput_error_of (input : JSVal)
    (h : input = JSVal.nonstr ∨ input = JSVal.str [] ∨
      ∃ s, input = JSVal.str s ∧
        ((jsTrim s).length < 100 ∨ (jsTrim s).length > 50000)) :
    ∃ m, validateInput input = Except.error m := by
  rcases h with h | h | ⟨s, rfl, hs⟩
  · exact ⟨_, by rw [h]; rfl⟩
  · exact ⟨_, by rw [h]; rfl⟩
  · by_cases he : s.isEmpty
    · exact ⟨_, by simp [validateInput, he]; rfl⟩
    · rcases hs with hs | hs
      · exact ⟨_, by simp [validateInput, he, hs]; rfl⟩
      · have h100 : ¬ (jsTrim s).length < 100 := by omega
        exact ⟨_, by simp [validateInput, he, h100, hs]; rfl⟩

/-- A successfully validated input is a string whose trimmed form has length
between the bounds; the returned value is that trimmed form. -/
theorem validateInput_ok (input : JSVal) (t : Str)
    (h : validateInput input = Except.ok t) :
    100 ≤ t.length ∧ ∃ s, input = JSVal.str s ∧ t = jsTrim s := by
  cases input with
  | nonstr => exact absurd h (by simp [validateInput])
  | str s =>
    by_cases he : s.isEmpty
    · exact absurd h (by simp [validateInput, he])
    · by_cases h1 : (jsTrim s).length < 100
      · exact absurd h (by simp [validateInput, he, h1])
      · by_cases h2 : (jsTrim s).length > 50000
        · exact absurd h (by simp [validateInput, he, h1, h2])
        · have ht : t = jsTrim s := by
            have h' := h
            simp [validateInput, he, h1, h2] at h'
            exact h'.symm
          exact ⟨by rw [ht]; omega, s, rfl, ht⟩

/-! Claims C2, C10, C9 -/

/-- Claim C2: for every input that is not a string, is empty, or whose trimmed
length is below 100 or above 50,000 characters, `summarizeText` rejects with
the input-validation `ValidationError`, identically for every provider
outcome and with the service state untouched — so no provider function is
consulted for such input. -/
theorem summarize_rejects_invalid_input (st : AIState) (input : JSVal)
    (opts : Options)
    (h : input = JSVal.nonstr ∨ input = JSVal.str [] ∨
      ∃ s, input = JSVal.str s ∧
        ((jsTrim s).length < 100 ∨ (jsTrim s).length > 50000)) :
    ∃ m, ∀ oracle,
      summarizeText st oracle input opts = (Except.error (.validation m), st) := by
  obtain ⟨m, hm⟩ := validateInput_error_of input h
  exact ⟨m, fun oracle => by simp [summarizeText, hm]⟩

/-- Witness for C2 at the concrete too-short input `"abc"`. -/
theorem summarize_rejects_invalid_input_witness :
    ∃ m, ∀ oracle,
      summarizeText ⟨Provider.huggingface, 0, 0⟩ oracle
        (JSVal.str ("abc" : String).toList) defaultOptions =
      (Except.error (.validation m), ⟨Provider.huggingface, 0, 0⟩) :=
  summarize_rejects_invalid_input ⟨Provider.huggingface, 0, 0⟩
    (JSVal.str ("abc" : String).toList) defaultOptions
    (Or.inr (Or.inr ⟨("abc" : String).toList, rfl, Or.inl (by decide)⟩))

/-- Claim C10: whenever `summarizeText` rejects with a `ValidationError`, the
service state — in particular both process-wide counters — is exactly the
state before the call. -/
theorem validation_rejection_preserves_counters (st : AIState)
    (oracle : Except Unit Str) (input : JSVal) (opts : Options)
    (h : ∃ m, (summarizeText st oracle input opts).1 =
      Except.error (.validation m)) :
    (summarizeText st oracle input opts).2 = st := by
  obtain ⟨m, hm⟩ := h
  cases hv : validateInput input with
  | error e => simp [summarizeText, hv]
  | ok t =>
    exfalso
    simp only [summarizeText, hv] at hm
    cases hp : primaryOutcome st.currentProvider oracle t opts with
    | ok v => rw [hp] at hm; exact Except.noConfusion hm
    | error e =>
      rw [hp] at hm
      by_cases hf : st.currentProvider ≠ Provider.fallback
      · rw [if_pos hf] at hm; exact Except.noConfusion hm
      · rw [if_neg hf] at hm; exact Except.noConfusion hm

/-- Witness for C10 at the concrete too-short input `"x"`. -/
theorem validation_rejection_preserves_counters_witness :
    (summarizeText ⟨Provider.openai, 3, 1⟩ (Except.error ())
      (JSVal.str ("x" : String).toList) defaultOptions).2 =
    ⟨Provider.openai, 3, 1⟩ :=
  validation_rejection_preserves_counters ⟨Provider.openai, 3, 1⟩
    (Except.error ()) (JSVal.str ("x" : String).toList) defaultOptions
    ⟨("Content must be at least 100 characters long for meaningful summarization" : String).toList,
      by decide⟩

/-- Claim C9: the provider is chosen exactly once at construction by the priority
order HuggingFace → OpenAI → local fallback engine, and no `summarizeText`
call — succeeding or failing — changes `currentProvider` for later calls. -/
theorem current_provider_static :
    (∀ cfg : Config, (initState cfg).currentProvider =
      (if cfg.huggingFaceApiKey then Provider.huggingface
       else if cfg.openaiApiKey then Provider.openai else Provider.fallback))
    ∧ ∀ (st : AIState) (oracle : Except Unit Str) (input : JSVal)
        (opts : Options),
        ((summarizeText st oracle input opts).2).currentProvider =
          st.currentProvider := by
  refine ⟨fun cfg => rfl, fun st oracle input opts => ?_⟩
  cases hv : validateInput input with
  | error e => simp [summarizeText, hv]
  | ok t =>
    cases hp : primaryOutcome st.currentProvider oracle t opts with
    | ok v => simp [summarizeText, hv, hp]
    | error e =>
      by_cases hf : st.currentProvider ≠ Provider.fallback
      · simp [summarizeText, hv, hp, hf]
      · simp [summarizeText, hv, hp, hf]

/-! Non-emptiness of the fallback chain outputs -/

/-- Canonical `simpleTruncate` never returns the empty string on non-empty
input. -/
theorem simpleTruncate_ne_nil (content : Str) (m : ℕ) (h : content ≠ []) :
    simpleTruncate content m ≠ [] := by
  simp only [simpleTruncate]
  split
  · split
    · exact h
    · split
      · split_ifs <;> simp
      · simp
  · split_ifs <;> simp_all

/-- `generateKeywordSummary` never returns the empty string on non-empty
input. -/
theorem generateKeywordSummary_ne_nil (content : Str) (w : ℕ)
    (h : content ≠ []) : generateKeywordSummary content w ≠ [] := by
  simp only [generateKeywordSummary]
  split
  · exact simpleTruncate_ne_nil content (w * 5) h
  · simp

/-- The extractive fallback engine never returns the empty string on
non-empty input. -/
theorem fallbackSummarize_ne_nil (content : Str) (opts : Options)
    (h : content ≠ []) : fallbackSummarize content opts ≠ [] := by
  simp only [fallbackSummarize]
  split
  · exact simpleTruncate_ne_nil content opts.maxLength h
  · split
    · exact generateKeywordSummary_ne_nil content (targetWordsFB opts.maxLength) h
    · simp_all [List.isEmpty_iff]

/-- A summary accepted by `validateAIResponse` has at least 10 characters. -/
theorem validateAIResponse_ok_length (v : JSVal) (original t : Str)
    (h : validateAIResponse v original = Except.ok t) : 10 ≤ t.length := by
  cases v with
  | nonstr => exact absurd h (by simp [validateAIResponse])
  | str s =>
    by_cases he : s.isEmpty
    · exact absurd h (by simp [validateAIResponse, he])
    · by_cases h1 : (jsTrim s).length < 10
      · exact absurd h (by simp [validateAIResponse, he, h1])
      · by_cases h2 : (jsTrim s).length > original.length
        · exact absurd h (by simp [validateAIResponse, he, h1, h2])
        · by_cases h3 : matchesFailurePhrase (jsTrim s)
          · exact absurd h (by simp [validateAIResponse, he, h1, h2, h3])
          · have ht : t = jsTrim s := by
              have h' := h
              simp [validateAIResponse, he, h1, h2, h3] at h'
              exact h'.symm
            rw [ht]; omega

/-- A successful primary-path outcome went through `validateAIResponse`. -/
theorem primaryOutcome_ok (p : Provider) (oracle : Except Unit Str)
    (t : Str) (opts : Options) (v : Str)
    (h : primaryOutcome p oracle t opts = Except.ok v) :
    ∃ s, validateAIResponse (JSVal.str s) t = Except.ok v := by
  simp only [primaryOutcome] at h
  split at h
  · exact Except.noConfusion h
  · rename_i s hs
    split at h
    · exact Except.noConfusion h
    · rename_i w hw
      exact ⟨s, by rw [hw, Except.ok.inj h]⟩

/-! Claim C1 -/

/-- Claim C1: for every validated in-range input, whenever the configured network
provider (retried) call fails or no network provider is configured (the
current provider is already the local engine), `summarizeText` still resolves
to a result whose summary is non-empty and whose provider tag is `fallback`
or `simple`; the only error it can ever raise is the input-validation
`ValidationError`. -/
theorem summarize_absorbs_provider_failures (st : AIState)
    (oracle : Except Unit Str) (input : JSVal) (opts : Options) (t : Str)
    (hv : validateInput input = Except.ok t)
    (hfail : st.currentProvider = Provider.fallback ∨ oracle = Except.error ()) :
    ∃ r st', summarizeText st oracle input opts = (Except.ok r, st')
      ∧ (r.provider = Provider.fallback ∨ r.provider = Provider.simple)
      ∧ r.summary ≠ [] := by
  have ht : t ≠ [] := by
    have h100 := (validateInput_ok input t hv).1
    intro h0; rw [h0] at h100; simp at h100
  cases hp : primaryOutcome st.currentProvider oracle t opts with
  | ok v =>
    have hfb : st.currentProvider = Provider.fallback := by
      rcases hfail with hf | ho
      · exact hf
      · by_contra hne
        have hout : primaryOutcome st.currentProvider oracle t opts =
            Except.error () := by
          simp only [primaryOutcome]
          cases hcp : st.currentProvider <;> simp_all
        rw [hout] at hp; exact Except.noConfusion hp
    obtain ⟨s, hval⟩ := primaryOutcome_ok _ _ _ _ _ hp
    refine ⟨formatResult v st.currentProvider t,
      ⟨st.currentProvider, st.requestCount + 1, st.errorCount⟩,
      by simp [summarizeText, hv, hp], ?_, ?_⟩
    · left; simp [formatResult, hfb]
    · have h10 := validateAIResponse_ok_length _ _ _ hval
      simp only [formatResult]
      intro h0; rw [h0] at h10; simp at h10
  | error e =>
    by_cases hf : st.currentProvider ≠ Provider.fallback
    · refine ⟨tryFallbackSummarization t opts,
        ⟨st.currentProvider, st.requestCount + 1, st.errorCount + 1⟩,
        ?_, Or.inl rfl, fallbackSummarize_ne_nil t opts ht⟩
      simp only [summarizeText, hv, hp]
      rw [if_pos hf]
    · refine ⟨formatResult (simpleTruncate t opts.maxLength) Provider.simple t,
        ⟨st.currentProvider, st.requestCount + 1, st.errorCount + 1⟩,
        ?_, Or.inr rfl, simpleTruncate_ne_nil t opts.maxLength ht⟩
      simp only [summarizeText, hv, hp]
      rw [if_neg hf]

set_option maxRecDepth 40000 in
/-- Witness for C1: a network provider whose retried call failed, on a
concrete in-range input. -/
theorem summarize_absorbs_provider_failures_witness :
    ∃ r st', summarizeText ⟨Provider.huggingface, 0, 0⟩ (Except.error ())
        (JSVal.str ("This paragraph is deliberately written to be comfortably longer than one hundred characters so that the validator accepts it." : String).toList)
        defaultOptions = (Except.ok r, st')
      ∧ (r.provider = Provider.fallback ∨ r.provider = Provider.simple)
      ∧ r.summary ≠ [] :=
  summarize_absorbs_provider_failures ⟨Provider.huggingface, 0, 0⟩
    (Except.error ())
    (JSVal.str ("This paragraph is deliberately written to be comfortably longer than one hundred characters so that the validator accepts it." : String).toList)
    defaultOptions
    (jsTrim ("This paragraph is deliberately written to be comfortably longer than one hundred characters so that the validator accepts it." : String).toList)
    (by decide) (Or.inr rfl)

/-! Claim C6 -/

/-- Claim C6: `validateAIResponse(summary, original)` raises exactly when the
summary is not a string or falsy, or its trimmed form is shorter than 10
characters, longer than the original, or begins (case-insensitively) with a
failure phrase; otherwise it returns the trimmed summary unchanged. -/
theorem ai_response_validation_iff (v : JSVal) (original : Str) :
    ((∃ e, validateAIResponse v original = Except.error e) ↔
      (v = JSVal.nonstr ∨ ∃ s, v = JSVal.str s ∧
        (s = [] ∨ (jsTrim s).length < 10 ∨
         (jsTrim s).length > original.length ∨
         matchesFailurePhrase (jsTrim s) = true)))
    ∧ ∀ s, v = JSVal.str s →
        ¬ (s = [] ∨ (jsTrim s).length < 10 ∨
           (jsTrim s).length > original.length ∨
           matchesFailurePhrase (jsTrim s) = true) →
        validateAIResponse v original = Except.ok (jsTrim s) := by
  cases v with
  | nonstr =>
    refine ⟨⟨fun _ => Or.inl rfl, fun _ => ⟨_, rfl⟩⟩, fun s hs => ?_⟩
    exact absurd hs (by simp)
  | str s =>
    constructor
    · constructor
      · rintro ⟨e, he⟩
        refine Or.inr ⟨s, rfl, ?_⟩
        by_contra hnc
        push_neg at hnc
        obtain ⟨hne, h10, hlen, hph⟩ := hnc
        have hemp : ¬ s.isEmpty := by simp [List.isEmpty_iff, hne]
        simp [validateAIResponse, hemp, h10, hlen, hph] at he
        rw [if_neg (by omega), if_neg (by omega)] at he
        exact Except.noConfusion he
      · rintro (h | ⟨s', hs', hcond⟩)
        · exact absurd h (by simp)
        · obtain rfl : s = s' := JSVal.str.inj hs'
          by_cases hemp : s.isEmpty
          · exact ⟨_, by simp [validateAIResponse, hemp]; rfl⟩
          · by_cases h10 : (jsTrim s).length < 10
            · exact ⟨_, by simp [validateAIResponse, hemp, h10]; rfl⟩
            · by_cases hlen : (jsTrim s).length > original.length
              · exact ⟨_, by simp [validateAIResponse, hemp, h10, hlen]; rfl⟩
              · by_cases hph : matchesFailurePhrase (jsTrim s) = true
                · exact ⟨_, by simp [validateAIResponse, hemp, h10, hlen, hph]; rfl⟩
                · exfalso
                  rcases hcond with h | h | h | h
                  · exact hemp (by simp [h])
                  · exact h10 h
                  · exact hlen h
                  · exact hph h
    · rintro s' hs' hnot
      obtain rfl : s = s' := JSVal.str.inj hs'
      push_neg at hnot
      obtain ⟨hne, h10, hlen, hph⟩ := hnot
      have hemp : ¬ s.isEmpty := by simp [List.isEmpty_iff, hne]
      simp [validateAIResponse, hemp, h10, hlen, hph]
      rw [if_neg (by omega), if_neg (by omega)]

/-- Witness for C6: a concrete well-formed summary is returned trimmed. -/
theorem ai_response_validation_iff_witness :
    validateAIResponse (JSVal.str ("A perfectly reasonable summary." : String).toList)
      ("The original content of the note, which is clearly longer than the summary returned here." : String).toList =
    Except.ok (jsTrim ("A perfectly reasonable summary." : String).toList) :=
  (ai_response_validation_iff
      (JSVal.str ("A perfectly reasonable summary." : String).toList)
      ("The original content of the note, which is clearly longer than the summary returned here." : String).toList).2
    ("A perfectly reasonable summary." : String).toList rfl (by decide)

/-! Claim C3 (corrected): the request/error counters -/

/-- The state after one `summarizeText` call: unchanged when validation
rejects; otherwise the request counter is incremented, and the error counter
as well exactly when the primary provider path failed. -/
theorem stepCall_state (st : AIState) (c : Call) :
    stepCall st c =
      if passesValidation c then
        (if callPrimaryFails st.currentProvider c then
          ⟨st.currentProvider, st.requestCount + 1, st.errorCount + 1⟩
        else ⟨st.currentProvider, st.requestCount + 1, st.errorCount⟩)
      else st := by
  cases hv : validateInput c.input with
  | error e =>
    simp [stepCall, summarizeText, passesValidation, hv]
  | ok t =>
    cases hp : primaryOutcome st.currentProvider c.oracle t c.opts with
    | ok v =>
      simp [stepCall, summarizeText, passesValidation, callPrimaryFails, hv, hp]
    | error e =>
      by_cases hf : st.currentProvider ≠ Provider.fallback
      · simp only [stepCall, summarizeText, passesValidation, callPrimaryFails,
          hv, hp, if_pos hf]
        simp
      · simp only [stepCall, summarizeText, passesValidation, callPrimaryFails,
          hv, hp, if_neg hf]
        simp

/-- One call leaves the provider selection untouched. -/
theorem stepCall_currentProvider (st : AIState) (c : Call) :
    (stepCall st c).currentProvider = st.currentProvider := by
  rw [stepCall_state]; split_ifs <;> rfl

/-- Claim C3 (amended): after any sequence of calls, `requestCount` has grown by
the number of calls that passed input validation, `errorCount` by the number
of validated calls whose primary provider path failed (including failures
masked by a successful fallback); `getStats` reports these counters, the
static provider, and the success rate `(requestCount − errorCount) /
requestCount × 100` (0 when no requests).  Validation-rejected calls change
neither counter. -/
theorem stats_counters_spec (st : AIState) (cs : List Call) :
    (runCalls st cs).requestCount = st.requestCount + cs.countP passesValidation
    ∧ (runCalls st cs).errorCount = st.errorCount +
        cs.countP (fun c => passesValidation c && callPrimaryFails st.currentProvider c)
    ∧ (runCalls st cs).currentProvider = st.currentProvider
    ∧ getStats (runCalls st cs) =
        ⟨(runCalls st cs).requestCount, (runCalls st cs).errorCount,
         (if (runCalls st cs).requestCount > 0 then
            (((runCalls st cs).requestCount : ℚ) - ((runCalls st cs).errorCount : ℚ))
              / ((runCalls st cs).requestCount : ℚ) * 100
          else 0),
         st.currentProvider⟩ := by
  induction cs generalizing st with
  | nil =>
    exact ⟨by simp [runCalls], by simp [runCalls], by simp [runCalls],
      by simp [runCalls, getStats]⟩
  | cons c cs ih =>
    have hrc : runCalls st (c :: cs) = runCalls (stepCall st c) cs := rfl
    obtain ⟨ih1, ih2, ih3, ih4⟩ := ih (stepCall st c)
    have hprov := stepCall_currentProvider st c
    simp only [hprov] at ih2 ih3 ih4
    refine ⟨?_, ?_, ?_, ?_⟩
    · rw [hrc, ih1, stepCall_state, List.countP_cons]
      split_ifs <;> (simp; try omega)
    · rw [hrc, ih2, stepCall_state, List.countP_cons]
      by_cases hpv : passesValidation c <;>
        by_cases hcf : callPrimaryFails st.currentProvider c <;>
          (simp [hpv, hcf]; try omega)
    · rw [hrc, ih3]
    · rw [hrc, ih4, ih1, ih2]

/-- Counterexample for C3 as stated: one validation-rejected call (`M = 1`)
leaves `requestCount` at 0, so the request counter does not count calls
rejected by input validation. -/
theorem stats_counters_counterexample :
    (runCalls (initState ⟨true, false⟩)
        [⟨JSVal.str ("tooshort" : String).toList, defaultOptions, Except.error ()⟩]).requestCount
      ≠ ([⟨JSVal.str ("tooshort" : String).toList, defaultOptions,
          Except.error ()⟩] : List Call).length := by
  decide

/-! Claim C4: retry with exponential backoff -/

/-- The retry worker consults the operation only at attempts
`attempt … attempt + remaining`. -/
theorem executeWithRetryGo_agree {E α : Type} (op op' : ℕ → Except E α) :
    ∀ (r a : ℕ), (∀ i, a ≤ i → i ≤ a + r → op i = op' i) →
      executeWithRetryGo op a r = executeWithRetryGo op' a r := by
  intro r
  induction r with
  | zero =>
    intro a h
    simp only [executeWithRetryGo, h a le_rfl (by omega)]
  | succ r ih =>
    intro a h
    simp only [executeWithRetryGo, h a le_rfl (by omega)]
    cases op' a with
    | ok v => rfl
    | error e => rw [ih (a + 1) (fun i h1 h2 => h i (by omega) (by omega))]

/-- The retry worker sleeps at most `remaining` times. -/
theorem executeWithRetryGo_length {E α : Type} (op : ℕ → Except E α) :
    ∀ (r a : ℕ), (executeWithRetryGo op a r).2.length ≤ r := by
  intro r
  induction r with
  | zero =>
    intro a
    simp only [executeWithRetryGo]
    cases op a <;> simp
  | succ r ih =>
    intro a
    simp only [executeWithRetryGo]
    cases op a with
    | ok v => simp
    | error e => simpa using Nat.succ_le_succ (ih (a + 1))

/-- The delays slept by the retry worker are a prefix of the backoff
schedule starting at the initial attempt. -/
theorem executeWithRetryGo_delays {E α : Type} (op : ℕ → Except E α) :
    ∀ (r a : ℕ), ∃ k, k ≤ r ∧ (executeWithRetryGo op a r).2 =
      (List.range k).map (fun i => backoffDelay (a + i)) := by
  intro r
  induction r with
  | zero =>
    intro a
    refine ⟨0, le_rfl, ?_⟩
    simp only [executeWithRetryGo]
    cases op a <;> simp
  | succ r ih =>
    intro a
    simp only [executeWithRetryGo]
    cases op a with
    | ok v => exact ⟨0, by omega, by simp⟩
    | error e =>
      obtain ⟨k, hk, hmap⟩ := ih (a + 1)
      refine ⟨k + 1, by omega, ?_⟩
      simp only [List.range_succ_eq_map, List.map_cons, List.map_map,
        Nat.add_zero]
      have hfun : (fun i => backoffDelay (a + 1 + i)) =
          ((fun i => backoffDelay (a + i)) ∘ Nat.succ) :=
        funext fun i => by
          simp only [Function.comp_apply]
          exact congrArg backoffDelay (by omega)
      rw [hmap, hfun]

/-- After every attempt failing, the worker rethrows the final error. -/
theorem executeWithRetryGo_allfail {E α : Type} (op : ℕ → Except E α) :
    ∀ (r a : ℕ), (∀ i, a ≤ i → i ≤ a + r → ∃ e, op i = Except.error e) →
      (executeWithRetryGo op a r).1 = op (a + r) := by
  intro r
  induction r with
  | zero =>
    intro a h
    obtain ⟨e, he⟩ := h a le_rfl (by omega)
    simp [executeWithRetryGo, he]
  | succ r ih =>
    intro a h
    obtain ⟨e, he⟩ := h a le_rfl (by omega)
    simp only [executeWithRetryGo, he]
    have := ih (a + 1) (fun i h1 h2 => h i (by omega) (by omega))
    rw [this]
    exact congrArg op (by omega)

/-- Claim C4: `executeWithRetry` with attempt budget `n ≥ 1` consults the wrapped
operation only at attempts `1 … n` (so it is invoked at most `n` times); it
sleeps at most `n − 1` delays, the `i`-th (0-based) being
`min(1000·2^i, 10000)` — i.e. `min(1000·2^(attempt−1), 10000)` for the
attempt that just failed; when every attempt fails it rethrows the last
error of the last attempt; and the fallback path is a single unretried call of the
extractive engine. -/
theorem retry_policy_spec {E α : Type} (op op' : ℕ → Except E α) (n : ℕ)
    (h1 : 1 ≤ n) :
    ((∀ i, 1 ≤ i → i ≤ n → op i = op' i) →
      executeWithRetry op n = executeWithRetry op' n)
    ∧ (executeWithRetry op n).2.length ≤ n - 1
    ∧ (executeWithRetry op n).2 =
        (List.range (executeWithRetry op n).2.length).map
          (fun i => min (1000 * 2 ^ i) 10000)
    ∧ ((∀ i, 1 ≤ i → i ≤ n → ∃ e, op i = Except.error e) →
        (executeWithRetry op n).1 = op n)
    ∧ ∀ (c : Str) (o : Options), tryFallbackSummarization c o =
        formatResult (fallbackSummarize c o) Provider.fallback c := by
  refine ⟨?_, ?_, ?_, ?_, fun c o => rfl⟩
  · intro h
    exact executeWithRetryGo_agree op op' (n - 1) 1
      (fun i hi1 hi2 => h i hi1 (by omega))
  · exact executeWithRetryGo_length op (n - 1) 1
  · obtain ⟨k, hk, hmap⟩ := executeWithRetryGo_delays op (n - 1) 1
    have hfun : (fun i => backoffDelay (1 + i)) =
        (fun i : ℕ => min (1000 * 2 ^ i) 10000) :=
      funext fun i => by
        simp only [backoffDelay]
        rw [show 1 + i - 1 = i from by omega]
    unfold executeWithRetry
    rw [hmap, hfun]
    simp
  · intro h
    have := executeWithRetryGo_allfail op (n - 1) 1
      (fun i hi1 hi2 => h i hi1 (by omega))
    unfold executeWithRetry
    rw [this]
    exact congrArg op (by omega)

/-- Witness for C4: a two-attempt budget over an always-failing operation
rethrows the final error. -/
theorem retry_policy_spec_witness :
    (executeWithRetry (fun _ => (Except.error 7 : Except ℕ ℕ)) 2).1 =
      Except.error 7 :=
  (retry_policy_spec (fun _ => (Except.error 7 : Except ℕ ℕ))
      (fun _ => (Except.error 7 : Except ℕ ℕ)) 2 (by omega)).2.2.2.1
    (fun i h1 h2 => ⟨7, rfl⟩)

/-! The stable sort model -/

/-- Inserting into the accumulator is a permutation of consing. -/
theorem stInsert_perm (lt : α → α → Bool) (x : α) (l : List α) :
    (stInsert lt x l).Perm (x :: l) := by
  induction l with
  | nil => exact List.Perm.refl _
  | cons y ys ih =>
    simp only [stInsert]
    split_ifs with h
    · exact List.Perm.refl _
    · exact (ih.cons y).trans (List.Perm.swap x y ys)

/-- The fold of stable insertions permutes the accumulator and the input. -/
theorem stSort_aux_perm (lt : α → α → Bool) :
    ∀ (l acc : List α),
      (l.foldl (fun acc x => stInsert lt x acc) acc).Perm (acc ++ l) := by
  intro l
  induction l with
  | nil => intro acc; simp
  | cons x xs ih =>
    intro acc
    simp only [List.foldl_cons]
    refine (ih (stInsert lt x acc)).trans ?_
    refine (List.Perm.append_right xs (stInsert_perm lt x acc)).trans ?_
    exact List.perm_middle.symm

/-- The stable sort is a permutation. -/
theorem stSort_perm (lt : α → α → Bool) (l : List α) :
    (stSort lt l).Perm l := by
  simpa using stSort_aux_perm lt l []

/-- Stable insertion preserves sortedness for an asymmetric, transitive-style
comparator. -/
theorem stInsert_pairwise (lt : α → α → Bool)
    (hasym : ∀ a b, lt a b = true → lt b a = false)
    (htr : ∀ a b c, lt a b = true → lt c b = false → lt c a = false)
    (x : α) (l : List α) (hl : l.Pairwise (fun a b => lt b a = false)) :
    (stInsert lt x l).Pairwise (fun a b => lt b a = false) := by
  induction l with
  | nil => simp [stInsert]
  | cons y ys ih =>
    rw [List.pairwise_cons] at hl
    obtain ⟨hy, hys⟩ := hl
    simp only [stInsert]
    split_ifs with h
    · rw [List.pairwise_cons]
      refine ⟨fun z hz => ?_, List.pairwise_cons.mpr ⟨hy, hys⟩⟩
      rcases List.mem_cons.mp hz with rfl | hz'
      · exact hasym x z h
      · exact htr x y z h (hy z hz')
    · rw [List.pairwise_cons]
      refine ⟨fun z hz => ?_, ih hys⟩
      have hz' := (stInsert_perm lt x ys).mem_iff.mp hz
      rcases List.mem_cons.mp hz' with rfl | hz''
      · simpa using h
      · exact hy z hz''

/-- The stable sort sorts (with respect to the negation of the comparator). -/
theorem stSort_pairwise (lt : α → α → Bool)
    (hasym : ∀ a b, lt a b = true → lt b a = false)
    (htr : ∀ a b c, lt a b = true → lt c b = false → lt c a = false)
    (l : List α) :
    (stSort lt l).Pairwise (fun a b => lt b a = false) := by
  have aux : ∀ (l acc : List α),
      acc.Pairwise (fun a b => lt b a = false) →
      (l.foldl (fun acc x => stInsert lt x acc) acc).Pairwise
        (fun a b => lt b a = false) := by
    intro l
    induction l with
    | nil => intro acc h; simpa using h
    | cons x xs ih =>
      intro acc h
      exact ih _ (stInsert_pairwise lt hasym htr x acc h)
  exact aux l [] List.Pairwise.nil

/-! Claim C5 -/

/-- Claim C5: with `S ≥ 1` candidate sentences, the engine selects exactly
`min(clamp(⌈S·0.3⌉, 2, 4), S)` sentences — the top of the score-descending
(stably sorted) list — and re-orders the selection by ascending original
position before assembling the summary. -/
theorem extractive_selection_spec (text : Str)
    (_h : 1 ≤ (extractSentences text).length) :
    (orderedSentences text).length =
      min (min (max 2 ((3 * (extractSentences text).length + 9) / 10)) 4)
        (extractSentences text).length
    ∧ (orderedScored text).Pairwise (fun a b => a.index ≤ b.index)
    ∧ (orderedScored text).Perm (topSentences text)
    ∧ (scoreSorted text).Pairwise (fun a b => b.score ≤ a.score)
    ∧ (scoreSorted text).Perm (scoredSentences text) := by
  have hasymI : ∀ a b : Scored, ltIdx a b = true → ltIdx b a = false := by
    intro a b hab; simp [ltIdx] at hab ⊢; omega
  have htrI : ∀ a b c : Scored,
      ltIdx a b = true → ltIdx c b = false → ltIdx c a = false := by
    intro a b c hab hcb; simp [ltIdx] at hab hcb ⊢; omega
  have hasymS : ∀ a b : Scored, ltScore a b = true → ltScore b a = false := by
    intro a b hab; simp [ltScore] at hab ⊢; linarith
  have htrS : ∀ a b c : Scored,
      ltScore a b = true → ltScore c b = false → ltScore c a = false := by
    intro a b c hab hcb; simp [ltScore] at hab hcb ⊢; linarith
  have hlen1 : (scoreSorted text).length = (extractSentences text).length := by
    simp only [scoreSorted]
    rw [(stSort_perm ltScore _).length_eq]
    simp [scoredSentences]
  refine ⟨?_, ?_, stSort_perm ltIdx _, ?_, stSort_perm ltScore _⟩
  · simp only [orderedSentences, List.length_map, orderedScored]
    rw [(stSort_perm ltIdx _).length_eq]
    simp only [topSentences, List.length_take, hlen1, numSentences]
  · exact (stSort_pairwise ltIdx hasymI htrI _).imp
      (fun hab => by simpa [ltIdx, Nat.not_lt] using hab)
  · exact (stSort_pairwise ltScore hasymS htrS _).imp
      (fun hab => by simpa [ltScore, not_lt] using hab)

/-- Witness for C5 at a concrete one-sentence text. -/
theorem extractive_selection_spec_witness :
    (orderedSentences ("this is a concrete sentence with enough characters." : String).toList).length =
      min (min (max 2 ((3 * (extractSentences ("this is a concrete sentence with enough characters." : String).toList).length + 9) / 10)) 4)
        (extractSentences ("this is a concrete sentence with enough characters." : String).toList).length :=
  (extractive_selection_spec
      ("this is a concrete sentence with enough characters." : String).toList
      (by decide)).1

/-! Claim C7 (corrected): simple truncation -/

/-- Claim C7 (amended): `simpleTruncate` always returns a string, non-empty for
non-empty input; the `≤ 4·maxLength + 3` character bound holds on the
character-truncation path (inputs with no sentence fragment) and holds
unconditionally for the `backend/src` variant; on the sentence path the
output is word-budgeted, not character-bounded. -/
theorem simple_truncation_spec (content : Str) (m : ℕ) :
    ((((jsSplit isSentTerm content).map jsTrim).filter
        (fun s => s.length > 0)).isEmpty = true →
      (simpleTruncate content m).length ≤ 4 * m + 3)
    ∧ (content ≠ [] → simpleTruncate content m ≠ [])
    ∧ ∀ (c : Str) (n : ℕ), (simpleTruncateB c n).length ≤ 4 * n + 3 := by
  refine ⟨?_, simpleTruncate_ne_nil content m, ?_⟩
  · intro hs
    simp only [simpleTruncate, hs, if_true]
    split_ifs with h1
    · omega
    · split
      · split_ifs <;> (simp [List.length_take]; omega)
      · simp [List.length_take]; omega
  · intro c n
    simp only [simpleTruncateB]
    split_ifs with h1
    · omega
    · split
      · split_ifs <;> (simp [List.length_take]; omega)
      · simp [List.length_take]; omega

/-- Counterexample for C7 as stated: a single 60-character word with
`maxLength = 1` yields a 61-character output, far beyond `4·maxLength`
plus any bounded ellipsis overhead — the sentence path budgets words, not
characters. -/
theorem simple_truncation_counterexample :
    0 < 1
    ∧ ¬ ((simpleTruncate
        ("aaaaaaaaaaaaaaaaaaaaaaaaaaaaaaaaaaaaaaaaaaaaaaaaaaaaaaaaaaaa" : String).toList
        1).length ≤ 4 * 1 + 3) := by
  decide

/-- Witness for C7 (amended) on a sentence-less input. -/
theorem simple_truncation_spec_witness :
    (simpleTruncate ("...." : String).toList 1).length ≤ 4 * 1 + 3 :=
  (simple_truncation_spec ("...." : String).toList 1).1 (by decide)

/-! Claim C8 (corrected): style formatting -/

/-- A list is a Boolean prefix of itself followed by anything. -/
theorem isPrefixOf_append_self (a b : List Char) :
    a.isPrefixOf (a ++ b) = true := by
  induction a with
  | nil => simp [List.isPrefixOf]
  | cons c cs ih => simp [List.isPrefixOf, ih]

/-- Claim C8 (amended): when sentences exist and the styled summary is non-empty,
the engine returns the styled assembled summary, where `bullet` produces the
newline-join of bullet-marker-prefixed trimmed points (each point begins
with the marker), `detailed` prepends the literal `"Summary: "`, and
`concise` applies no transformation at all; when no sentence qualifies the
engine returns the truncation output with no style transformation. -/
theorem style_formatting_spec (content : Str) (opts : Options) :
    (extractSentences content = [] →
      fallbackSummarize content opts = simpleTruncate content opts.maxLength)
    ∧ applyStyle Style.concise (assembledSummary content opts.maxLength) =
        assembledSummary content opts.maxLength
    ∧ (assembledSummary content opts.maxLength ≠ [] →
        applyStyle Style.detailed (assembledSummary content opts.maxLength) =
          ("Summary: " : String).toList ++ assembledSummary content opts.maxLength
        ∧ applyStyle Style.bullet (assembledSummary content opts.maxLength) =
            List.intercalate ['\n']
              ((bulletPoints (assembledSummary content opts.maxLength)).map
                (fun p => bulletMarker ++ jsTrim p))
        ∧ ∀ q ∈ (bulletPoints (assembledSummary content opts.maxLength)).map
              (fun p => bulletMarker ++ jsTrim p),
            bulletMarker.isPrefixOf q = true)
    ∧ (extractSentences content ≠ [] →
        applyStyle opts.style (assembledSummary content opts.maxLength) ≠ [] →
        fallbackSummarize content opts =
          applyStyle opts.style (assembledSummary content opts.maxLength)) := by
  refine ⟨?_, rfl, ?_, ?_⟩
  · intro h
    simp [fallbackSummarize, List.isEmpty_iff, h]
  · intro hne
    have hne' : ¬ (assembledSummary content opts.maxLength).isEmpty := by
      simpa [List.isEmpty_iff] using hne
    refine ⟨by simp [applyStyle, hne'], by simp [applyStyle, hne'], ?_⟩
    intro q hq
    obtain ⟨p, hp, rfl⟩ := List.mem_map.mp hq
    exact isPrefixOf_append_self bulletMarker (jsTrim p)
  · intro hne hstyled
    simp [fallbackSummarize, List.isEmpty_iff, hne, hstyled]

/-- Counterexample for C8 as stated: with `detailed` style on an input whose
fragments are all too short to qualify as sentences, the engine output is
non-empty but does not begin with `"Summary:"`. -/
theorem style_formatting_counterexample :
    fallbackSummarize ("tiny. bits. here." : String).toList ⟨150, Style.detailed⟩ ≠ []
    ∧ ¬ ((("Summary:" : String).toList).isPrefixOf
        (fallbackSummarize ("tiny. bits. here." : String).toList
          ⟨150, Style.detailed⟩) = true) := by
  decide

/-- Witness for C8 (amended) at a concrete one-sentence text with the
default `concise` style. -/
theorem style_formatting_spec_witness :
    fallbackSummarize
        ("This is the first sentence about important topics." : String).toList
        ⟨150, Style.concise⟩ =
      applyStyle Style.concise
        (assembledSummary
          ("This is the first sentence about important topics." : String).toList
          150) :=
  (style_formatting_spec
      ("This is the first sentence about important topics." : String).toList
      ⟨150, Style.concise⟩).2.2.2 (by decide) (by decide)

end NotesApp
